import Mathlib

/-!
Verification of the street-address normalization pipeline in `2paso.py`.

The file shallowly embeds the regex tables (`TIPO_INICIO_RE`, `CANON_RULES`),
the pure cleaning functions (`canonizar_tipo`, `limpiar_par`) and the
scan/update/commit/export loop of `main` as executable Lean definitions, and
proves the specified properties about them.

Conventions:
* Python `None`-or-`str` values are modelled as `Option String`.  The code
  only ever tests `isinstance(x, str)`, so every non-string value follows the
  same path as `None`; `none` stands for any non-string cell value.
* Python (ASCII) whitespace is modelled by `isSpace`; `str.strip` by
  `pyStrip`; `str.lower` / `re.IGNORECASE` by the character map `pyLower`
  (ASCII letters plus the accented letters occurring in the rule tables).
* The regexes are embedded as ordered variant lists matched with the same
  leftmost-alternative, backtracking semantics as Python `re`.
-/

/-- Python (ASCII) whitespace, as matched by `\s` and stripped by `str.strip`. -/
def isSpace (c : Char) : Bool :=
  c = ' ' || c = '\t' || c = '\n' || c = '\r' || c = '\x0b' || c = '\x0c'

/-- Lower-casing as used by `str.lower()` and `re.IGNORECASE` comparisons,
for the characters relevant to the rule tables (ASCII letters and the
accented Spanish capitals). -/
def pyLower (c : Char) : Char :=
  if 'A' ≤ c ∧ c ≤ 'Z' then Char.ofNat (c.toNat + 32)
  else if c = 'Á' then 'á'
  else if c = 'É' then 'é'
  else if c = 'Í' then 'í'
  else if c = 'Ó' then 'ó'
  else if c = 'Ú' then 'ú'
  else if c = 'Ü' then 'ü'
  else if c = 'Ñ' then 'ñ'
  else c

/-- `str.strip()` on the character list: drop leading whitespace, then
trailing whitespace (via reversal). -/
def pyStripL (l : List Char) : List Char :=
  ((l.dropWhile isSpace).reverse.dropWhile isSpace).reverse

/-- `str.strip()`. -/
def pyStrip (s : String) : String := String.mk (pyStripL s.data)

/-- `str.lower()` (on the characters relevant to the tables). -/
def pyLowerS (s : String) : String := String.mk (s.data.map pyLower)

/-- Case-insensitive literal-prefix matcher: matches the (lower-case) pattern
`v` against a prefix of the input, returning the raw matched prefix and the
rest.  This is how a single regex alternative such as `avenida` consumes
input under `re.IGNORECASE`: each input character lower-cases to the
corresponding pattern character; the captured text keeps the original case. -/
def matchCI : List Char → List Char → Option (List Char × List Char)
  | [], l => some ([], l)
  | _ :: _, [] => none
  | vc :: vs, c :: cs =>
    if pyLower c = vc then
      match matchCI vs cs with
      | some (p, rest) => some (c :: p, rest)
      | none => none
    else none

/-- `.+$` (no `re.DOTALL`, no `re.MULTILINE`): at least one non-newline
character, ending at the end of the string or just before a single final
newline. -/
def nomMatch (l : List Char) : Option (List Char) :=
  if l = [] then none
  else if l.contains '\n' = false then some l
  else if l.getLast? = some '\n' ∧ l.dropLast ≠ [] ∧ l.dropLast.contains '\n' = false then
    some l.dropLast
  else none

/-- Backtracking loop for `\s+(?P<nombre>.+)$`: the greedy `\s+` first takes
the whole whitespace run (passed reversed in the first argument) and gives
characters back one at a time while `.+$` fails on the remainder. -/
def shrinkAux : List Char → List Char → Option (List Char × List Char)
  | [], _ => none
  | c :: wrev, t =>
    match nomMatch t with
    | some n => some ((c :: wrev).reverse, n)
    | none => shrinkAux wrev (c :: t)

/-- Match `\s+(?P<nombre>.+)$` against `rest`, returning the matched
separator run and the captured name. -/
def suffixMatch (rest : List Char) : Option (List Char × List Char) :=
  shrinkAux (rest.takeWhile isSpace).reverse (rest.dropWhile isSpace)

/-- Result of `TIPO_INICIO_RE.match`: the raw captured `tipo` group, the
whitespace run consumed by `\s+`, and the captured `nombre` group. -/
structure TipoMatch where
  tipo : String
  sep : String
  nombre : String
deriving DecidableEq, Repr

/-- The alternatives of the `tipo` group of `TIPO_INICIO_RE`, flattened into
the exact order the Python regex engine tries them (leftmost alternative
first; inside an alternative, optional/alternation parts in backtracking
order, e.g. `av(?:\.|enida)?` tries `av.`, `avenida`, `av`).  The lookahead
in `c\.(?=\s)` is subsumed by the mandatory `\s+` that follows the group and
is therefore not modelled separately.  Character classes `[oó]`, `[eé]`,
`[ií]` are expanded into adjacent variants (at most one of them can match a
given input). -/
def TIPO_VARIANTS : List String :=
  [ "av.", "avenida", "av",
    "calle", "cal.", "cal",
    "c.",
    "bulevar", "bulvar",
    "boulevard",
    "blvd.", "blvd",
    "cto.", "cto",
    "circuito",
    "camino", "cam.", "cam",
    "calzada", "calz.", "calz",
    "prol.", "prolongacion", "prolongación", "prol",
    "privada", "priv.", "priv",
    "cerrada", "cerr.", "cerr",
    "cjon.", "cjon", "callejon.", "callejon", "callejón.", "callejón",
    "andador", "and.", "and",
    "carretera", "carr.", "carr", "cte.", "cte",
    "eje",
    "paseo", "psje.", "psje", "pseo",
    "anillo",
    "via", "vía",
    "periferico", "periférico", "perif.", "perif",
    "viaducto", "viad.", "viad",
    "aldea" ]

/-- Try the `tipo` alternatives in order; for each matching prefix, require
`\s+(?P<nombre>.+)$` on the remainder, otherwise fall through to the next
alternative (Python `re` backtracking). -/
def tryVars : List String → List Char → Option TipoMatch
  | [], _ => none
  | v :: vs, l =>
    match matchCI v.data l with
    | some (p, rest) =>
      match suffixMatch rest with
      | some (w, n) => some ⟨String.mk p, String.mk w, String.mk n⟩
      | none => tryVars vs l
    | none => tryVars vs l

/-- `TIPO_INICIO_RE.match (s)`: skip the leading `\s*`, then match a type
token followed by whitespace and a non-empty name. -/
def tipoInicioMatch (s : String) : Option TipoMatch :=
  tryVars TIPO_VARIANTS (s.data.dropWhile isSpace)

/-- `CANON_RULES`: each rule is the list of (lower-case) variants of its
anchored, case-insensitive alternation, paired with the canonical label. -/
def CANON_RULES : List (List String × String) :=
  [ (["av.", "avenida", "av"], "Avenida"),
    (["calle", "cal.", "cal", "c."], "Calle"),
    (["bulevar", "bulvar", "boulevard", "blvd.", "blvd"], "Bulevar"),
    (["cto.", "cto", "circuito"], "Circuito"),
    (["camino", "cam.", "cam"], "Camino"),
    (["calzada", "calz.", "calz"], "Calzada"),
    (["prol.", "prolongacion", "prolongación", "prol"], "Prolongación"),
    (["privada", "priv.", "priv"], "Privada"),
    (["cerrada", "cerr.", "cerr"], "Cerrada"),
    (["cjon.", "cjon", "callejon.", "callejon", "callejón.", "callejón"], "Callejón"),
    (["andador", "and.", "and"], "Andador"),
    (["carretera", "carr.", "carr", "cte.", "cte"], "Carretera"),
    (["eje"], "Eje"),
    (["paseo", "psje.", "psje", "pseo"], "Paseo"),
    (["anillo"], "Anillo"),
    (["via", "vía"], "Vía"),
    (["periferico", "periférico", "perif.", "perif"], "Periférico"),
    (["viaducto", "viad.", "viad"], "Viaducto"),
    (["aldea"], "Aldea") ]

/-- Does the anchored pattern `^(?:v)$` match the lowered input `l`?  The
trailing `$` also matches just before a single final newline, hence the
second disjunct (unreachable on stripped inputs but part of the regex). -/
def canonVariantHit (v : String) (l : List Char) : Bool :=
  l == v.data || l == v.data ++ ['\n']

/-- Scan the canonization rules in order; first matching rule wins. -/
def canonAux : List (List String × String) → List Char → Option String
  | [], _ => none
  | (vars, canon) :: rest, l =>
    if vars.any (fun v => canonVariantHit v l) then some canon
    else canonAux rest l

/-- Look `t` up in `CANON_RULES` (case-insensitively, as `re.IGNORECASE`
does: the input is lowered and compared to the lower-case variants). -/
def canonLookup (t : String) : Option String :=
  canonAux CANON_RULES (t.data.map pyLower)

/-- The `TIPO_INICIO_RE` reduction step inside `canonizar_tipo`: if the
(type) field itself looks like "tipo nombre", keep only the leading token. -/
def canonReduce (t : String) : String :=
  match tipoInicioMatch t with
  | some m => m.tipo
  | none => t

/-- `canonizar_tipo` of `2paso.py`: `None` (or any non-string) and
whitespace-only strings are returned untouched; otherwise the input is
stripped, reduced to its leading type token if `TIPO_INICIO_RE` matches,
looked up in `CANON_RULES`, and returned as-is (stripped) if no rule
matches. -/
def canonizar_tipo : Option String → Option String
  | Option.none => Option.none
  | some s =>
    if pyStrip s = "" then some s
    else
      match canonLookup (canonReduce (pyStrip s)) with
      | some c => some c
      | Option.none => some (canonReduce (pyStrip s))

/-- Step 1 of `limpiar_par`: if `calle` is a string whose stripped value
matches `TIPO_INICIO_RE`, split it and canonize the detected type. -/
def limpiarStep1 (calle : Option String) : Option (Option String × Option String) :=
  match calle with
  | some c =>
    match tipoInicioMatch (pyStrip c) with
    | some m => some (canonizar_tipo (some m.tipo), some (pyStrip m.nombre))
    | Option.none => Option.none
  | Option.none => Option.none

/-- Step 3 of `limpiar_par`: if `tipo_via` and `calle` are equal after
strip+lower, re-attempt the extraction from `calle`. -/
def limpiarStep3 (tipo_via calle : Option String) :
    Option (Option String × Option String) :=
  match tipo_via, calle with
  | some tv, some c =>
    if pyLowerS (pyStrip tv) = pyLowerS (pyStrip c) then
      match tipoInicioMatch (pyStrip c) with
      | some m2 => some (canonizar_tipo (some m2.tipo), some (pyStrip m2.nombre))
      | Option.none => Option.none
    else Option.none
  | _, _ => Option.none

/-- `limpiar_par` of `2paso.py`: steps 1 (extract from `calle`),
2 (canonize `tipo_via`), 3 (dirty-duplicate re-check) and 4 (no structural
change: return the canonized type and the stripped `calle`). -/
def limpiar_par (tipo_via calle : Option String) : Option String × Option String :=
  match limpiarStep1 calle with
  | some res => res
  | Option.none =>
    match limpiarStep3 tipo_via calle with
    | some res => res
    | Option.none => (canonizar_tipo tipo_via, calle.map pyStrip)

/-- `limpiar_par` with step 3 (the dirty-duplicate re-check) removed: steps
1, 2 and 4 only.  This is the comparison point demanded by the spec's
refinement claim. -/
def limpiar_par_no3 (tipo_via calle : Option String) : Option String × Option String :=
  match limpiarStep1 calle with
  | some res => res
  | Option.none => (canonizar_tipo tipo_via, calle.map pyStrip)

/-!
## The scan / update / batch-commit / export pipeline of `main`

`main` scans `SELECT pk, tipo_via, calle … ORDER BY pk` through a
server-side cursor (a snapshot of the table restricted by the optional
`--where` predicate), cleans each row with `limpiar_par`, skips rows whose
pair is unchanged, records the ids of changed rows in `changed_ids`,
executes the `UPDATE` for them unless `--dry-run`, and commits every
`--batch-commit` updates plus a final commit for the remainder.  Afterwards
it exports to CSV and finally rolls back (dry-run) or lets the connection
commit (real run).

The database is modelled by two table states: `committed` (what is durable)
and `pending` (the current transaction's view); `UPDATE` rewrites `pending`,
`COMMIT` copies `pending` into `committed`, `ROLLBACK` copies `committed`
back into `pending`.  `changed_ids` is a Python `set` filled in primary-key
scan order; it is modelled as the insertion-ordered list of added ids (equal
to the set whenever the primary key is duplicate-free).
-/

/-- One table row: the primary key (first column) and the two cleaned
columns.  Passthrough columns are untouched by the pipeline and omitted. -/
structure Row where
  id : Nat
  tipo_via : Option String
  calle : Option String
deriving DecidableEq, Repr

/-- The planned pair for a row. -/
def cleanRow (r : Row) : Option String × Option String :=
  limpiar_par r.tipo_via r.calle

/-- The skip test of the loop: `if (nt == tipo_via) and (nc == calle):
continue` — a row is changed iff the planned pair differs from the stored
pair under exact (untrimmed) equality. -/
def rowChanged (r : Row) : Bool :=
  decide (cleanRow r ≠ (r.tipo_via, r.calle))

/-- The optional `--where` predicate (pushed down to the store). -/
def rowPass (w : Option (Row → Bool)) (r : Row) : Bool :=
  match w with
  | some f => f r
  | none => true

/-- `UPDATE … SET tipo_via = nt, calle = nc WHERE pk = i`. -/
def applyUpdate (tbl : List Row) (i : Nat) (nt nc : Option String) : List Row :=
  tbl.map fun r => if r.id = i then { r with tipo_via := nt, calle := nc } else r

/-- The planned mutation of a row. -/
def planOf (r : Row) : Nat × Option String × Option String :=
  (r.id, cleanRow r)

/-- Apply one planned mutation. -/
def applyPlan (tbl : List Row) (p : Nat × Option String × Option String) : List Row :=
  applyUpdate tbl p.1 p.2.1 p.2.2

/-- Apply a list of planned mutations in order. -/
def applyPlans (tbl : List Row) (ps : List (Nat × Option String × Option String)) : List Row :=
  ps.foldl applyPlan tbl

/-- The changed rows of a scan, in scan order. -/
def chRows (rows : List Row) : List Row :=
  rows.filter rowChanged

/-- The in-flight state of one pipeline run. -/
structure RunState where
  committed : List Row
  pending : List Row
  changedIds : List Nat
  toCommit : Nat
  updated : Nat
  updatesExec : Nat
  commitsExec : Nat
deriving DecidableEq, Repr

/-- State at the start of a run over a table snapshot. -/
def initState (snapshot : List Row) : RunState :=
  ⟨snapshot, snapshot, [], 0, 0, 0, 0⟩

/-- The loop body of `main`: skip unchanged rows; otherwise record the id,
and — unless dry-run — execute the `UPDATE`, count it towards the batch and
commit when the batch size is reached. -/
def stepRow (dry : Bool) (batch : Nat) (st : RunState) (r : Row) : RunState :=
  if rowChanged r then
    let st1 := { st with changedIds := st.changedIds ++ [r.id], updated := st.updated + 1 }
    if dry then st1
    else
      let st2 := { st1 with
        pending := applyUpdate st1.pending r.id (cleanRow r).1 (cleanRow r).2,
        toCommit := st1.toCommit + 1,
        updatesExec := st1.updatesExec + 1 }
      if batch ≤ st2.toCommit then
        { st2 with committed := st2.pending, toCommit := 0, commitsExec := st2.commitsExec + 1 }
      else st2
  else st

/-- The whole scan loop over the (filtered, pk-ordered) snapshot. -/
def scanFold (dry : Bool) (batch : Nat) (rows : List Row) (st : RunState) : RunState :=
  rows.foldl (stepRow dry batch) st

/-- `if not dry_run and to_commit > 0: conn.commit()` after the loop. -/
def finalFlush (dry : Bool) (st : RunState) : RunState :=
  if dry = false ∧ 0 < st.toCommit then
    { st with committed := st.pending, commitsExec := st.commitsExec + 1 }
  else st

/-- Result of `export_csv` / `_write_csv`: the exported data rows, whether
the empty-change-set notice was printed, and whether the CSV file was
written (it is written in every branch, header included). -/
structure ExportResult where
  rows : List Row
  notice : Bool
  written : Bool
deriving DecidableEq, Repr

/-- Sorted insertion by the first column (`ORDER BY 1`). -/
def insertById (r : Row) : List Row → List Row
  | [] => [r]
  | x :: xs => if r.id ≤ x.id then r :: x :: xs else x :: insertById r xs

/-- `ORDER BY 1` over the exported rows. -/
def sortById (l : List Row) : List Row :=
  l.foldr insertById []

/-- `LIMIT`: applied only when the limit argument is positive
(`if limit and limit > 0`). -/
def limcut (limit : Nat) (l : List Row) : List Row :=
  if 0 < limit then l.take limit else l

/-- `export_csv` of `2paso.py` over the current table view: `changed` mode
keeps the rows whose first column is in `changed_ids` (also re-applying the
`--where` predicate), `all` mode keeps the (filtered) table; both are sorted
by the first column and truncated by `LIMIT`.  An empty change set in
`changed` mode short-circuits to a header-only CSV plus a printed notice. -/
def export_csv (tbl : List Row) (w : Option (Row → Bool)) (modeChanged : Bool)
    (changedIds : List Nat) (limit : Nat) : ExportResult :=
  if modeChanged then
    if changedIds = [] then ⟨[], true, true⟩
    else
      ⟨limcut limit (sortById (tbl.filter fun r => decide (r.id ∈ changedIds) && rowPass w r)),
       false, true⟩
  else
    ⟨limcut limit (sortById (tbl.filter (rowPass w))), false, true⟩

/-- Result of one whole invocation of `main`. -/
structure FullResult where
  final : RunState
  exported : ExportResult
deriving DecidableEq, Repr

/-- `main` of `2paso.py` (backup elided — it only copies the table): scan
the filtered snapshot in pk order, mutate/commit per batch, flush the
remainder, export the CSV from the transaction's current view, then roll
back (dry-run: `conn.rollback()`) or let the `with` block commit. -/
def runMain (dry : Bool) (batch : Nat) (snapshot : List Row)
    (w : Option (Row → Bool)) (modeChanged : Bool) (limit : Nat) : FullResult :=
  let st1 := scanFold dry batch (snapshot.filter (rowPass w)) (initState snapshot)
  let st2 := finalFlush dry st1
  let ex := export_csv st2.pending w modeChanged st2.changedIds limit
  let st3 := if dry then { st2 with pending := st2.committed }
             else { st2 with committed := st2.pending }
  ⟨st3, ex⟩

/-- A real run aborted by a failure after `j` rows of the stream: the loop
state at that point, with the in-flight batch discarded (the exception
leaves the `with` block, which rolls the open transaction back; `committed`
is untouched). -/
def runAborted (batch : Nat) (snapshot : List Row) (w : Option (Row → Bool))
    (j : Nat) : RunState :=
  scanFold false batch ((snapshot.filter (rowPass w)).take j) (initState snapshot)

/-- The loop invariant of a real (non-dry) run: the transaction view equals
the snapshot with all planned mutations so far applied; the batch counter is
the number of planned mutations modulo the batch size; one commit happened
per full batch; and the durable table contains exactly the full batches. -/
def RealInv (b : Nat) (s0 processed : List Row) (st : RunState) : Prop :=
  st.pending = applyPlans s0 ((chRows processed).map planOf) ∧
  st.toCommit = (chRows processed).length % b ∧
  st.commitsExec = (chRows processed).length / b ∧
  st.committed = applyPlans s0 (((chRows processed).map planOf).take
    (b * ((chRows processed).length / b)))

/-- A small concrete table used by the witnesses: three rows, all changed
by the cleaner. -/
def sampleRows : List Row :=
  [⟨1, some "Av.", some "Uno"⟩, ⟨2, some "Av.", some "Dos"⟩, ⟨3, some "Av.", some "Tres"⟩]

/-! ## Basic facts about stripping and the matcher -/

lemma mk_data (s : String) : String.mk s.data = s := by cases s; rfl

lemma mk_append (a b : List Char) : String.mk a ++ String.mk b = String.mk (a ++ b) := rfl

lemma mk_eq_empty_iff (l : List Char) : String.mk l = "" ↔ l = [] := by
  constructor
  · intro h
    have h2 : (String.mk l).data = ("" : String).data := by rw [h]
    exact h2
  · intro h; rw [h]

lemma dropWhile_head_false {p : Char → Bool} :
    ∀ (l : List Char) (c : Char), (l.dropWhile p).head? = some c → p c = false := by
  intro l
  induction l with
  | nil => intro c h; simp [List.dropWhile] at h
  | cons a t ih =>
    intro c h
    rw [List.dropWhile_cons] at h
    by_cases hpa : p a
    · rw [if_pos hpa] at h
      exact ih c h
    · rw [if_neg hpa] at h
      have hac : a = c := by simpa using h
      subst hac
      simpa using hpa

lemma dropWhile_eq_self_of_head {p : Char → Bool} (l : List Char)
    (h : ∀ c, l.head? = some c → p c = false) : l.dropWhile p = l := by
  cases l with
  | nil => rfl
  | cons a t =>
    have := h a rfl
    simp [List.dropWhile_cons, this]

lemma getLast?_dropWhile {p : Char → Bool} :
    ∀ l : List Char, l.dropWhile p ≠ [] → (l.dropWhile p).getLast? = l.getLast? := by
  intro l
  induction l with
  | nil => intro h; simp [List.dropWhile] at h
  | cons a t ih =>
    intro h
    rw [List.dropWhile_cons]
    rw [List.dropWhile_cons] at h
    by_cases hpa : p a
    · rw [if_pos hpa] at h ⊢
      rw [ih h]
      have ht : t ≠ [] := by
        intro he; subst he; simp [List.dropWhile] at h
      cases t with
      | nil => exact absurd rfl ht
      | cons b u => exact (List.getLast?_cons_cons).symm
    · rw [if_neg hpa]

lemma pyStripL_head (l : List Char) (c : Char) (h : (pyStripL l).head? = some c) :
    isSpace c = false := by
  unfold pyStripL at h
  rw [List.head?_reverse] at h
  set m := (l.dropWhile isSpace).reverse.dropWhile isSpace with hm
  by_cases hme : m = []
  · rw [hme] at h; simp at h
  · rw [getLast?_dropWhile _ hme, List.getLast?_reverse] at h
    exact dropWhile_head_false _ _ h

lemma pyStripL_getLast (l : List Char) (c : Char) (h : (pyStripL l).getLast? = some c) :
    isSpace c = false := by
  unfold pyStripL at h
  rw [List.getLast?_reverse] at h
  exact dropWhile_head_false _ _ h

lemma pyStripL_idem (l : List Char) : pyStripL (pyStripL l) = pyStripL l := by
  have h1 : (pyStripL l).dropWhile isSpace = pyStripL l :=
    dropWhile_eq_self_of_head _ (fun c hc => pyStripL_head l c hc)
  have h2 : (pyStripL l).reverse.dropWhile isSpace = (pyStripL l).reverse := by
    apply dropWhile_eq_self_of_head
    intro c hc
    rw [List.head?_reverse] at hc
    exact pyStripL_getLast l c hc
  show ((((pyStripL l).dropWhile isSpace).reverse.dropWhile isSpace)).reverse = pyStripL l
  rw [h1, h2, List.reverse_reverse]

lemma pyStrip_idem (s : String) : pyStrip (pyStrip s) = pyStrip s := by
  show String.mk (pyStripL (String.mk (pyStripL s.data)).data) = String.mk (pyStripL s.data)
  rw [show (String.mk (pyStripL s.data)).data = pyStripL s.data from rfl, pyStripL_idem]

lemma pyStripL_of_no_space (l : List Char) (h : ∀ c ∈ l, isSpace c = false) :
    pyStripL l = l := by
  have h1 : l.dropWhile isSpace = l := by
    apply dropWhile_eq_self_of_head
    intro c hc
    exact h c (List.mem_of_mem_head? hc)
  have h2 : l.reverse.dropWhile isSpace = l.reverse := by
    apply dropWhile_eq_self_of_head
    intro c hc
    exact h c (by
      have := List.mem_of_mem_head? hc
      simpa using this)
  unfold pyStripL
  rw [h1, h2, List.reverse_reverse]

lemma pyStrip_of_no_space (s : String) (h : ∀ c ∈ s.data, isSpace c = false) :
    pyStrip s = s := by
  show String.mk (pyStripL s.data) = s
  rw [pyStripL_of_no_space s.data h, mk_data]

lemma pyLower_of_space {c : Char} (h : isSpace c = true) : pyLower c = c := by
  simp only [isSpace, Bool.or_eq_true, decide_eq_true_eq] at h
  rcases h with ((((h | h) | h) | h) | h) | h <;> subst h <;> decide

/-! Specification lemmas for the embedded regex matcher. -/

lemma matchCI_spec :
    ∀ (v l p r : List Char), matchCI v l = some (p, r) →
      p ++ r = l ∧ p.length = v.length ∧ ∀ c ∈ p, ∃ vc ∈ v, pyLower c = vc := by
  intro v
  induction v with
  | nil =>
    intro l p r h
    simp [matchCI] at h
    obtain ⟨h1, h2⟩ := h
    subst h1; subst h2
    simp
  | cons vc vs ih =>
    intro l p r h
    cases l with
    | nil => simp [matchCI] at h
    | cons c cs =>
      simp only [matchCI] at h
      by_cases hc : pyLower c = vc
      · rw [if_pos hc] at h
        cases hm : matchCI vs cs with
        | none => rw [hm] at h; simp at h
        | some pr =>
          obtain ⟨p', r'⟩ := pr
          rw [hm] at h
          simp at h
          obtain ⟨h1, h2⟩ := h
          subst h1; subst h2
          obtain ⟨e1, e2, e3⟩ := ih cs p' r' hm
          refine ⟨by simp [e1], by simp [e2], ?_⟩
          intro d hd
          rcases List.mem_cons.mp hd with hd | hd
          · subst hd; exact ⟨vc, List.mem_cons_self _ _, hc⟩
          · obtain ⟨vd, hvd, hl⟩ := e3 d hd
            exact ⟨vd, List.mem_cons_of_mem _ hvd, hl⟩
      · rw [if_neg hc] at h; simp at h

lemma nomMatch_spec (l n : List Char) (h : nomMatch l = some n) :
    n ≠ [] ∧ n.contains '\n' = false ∧ (l = n ∨ l = n ++ ['\n']) := by
  unfold nomMatch at h
  by_cases h0 : l = []
  · rw [if_pos h0] at h; simp at h
  · rw [if_neg h0] at h
    by_cases h1 : l.contains '\n' = false
    · rw [if_pos h1] at h
      injection h with he
      subst he
      exact ⟨h0, h1, Or.inl rfl⟩
    · rw [if_neg h1] at h
      by_cases h2 : l.getLast? = some '\n' ∧ l.dropLast ≠ [] ∧ l.dropLast.contains '\n' = false
      · rw [if_pos h2] at h
        injection h with he
        subst he
        refine ⟨h2.2.1, h2.2.2, Or.inr ?_⟩
        have hlast : l.getLast h0 = '\n' := by
          have hg := List.getLast?_eq_getLast l h0
          rw [hg] at h2
          exact Option.some.inj h2.1
        have hd := List.dropLast_append_getLast h0
        rw [hlast] at hd
        exact hd.symm
      · rw [if_neg h2] at h; simp at h

lemma shrinkAux_spec :
    ∀ (wrev t w n : List Char), (∀ c ∈ wrev, isSpace c = true) →
      shrinkAux wrev t = some (w, n) →
      w ≠ [] ∧ (∀ c ∈ w, isSpace c = true) ∧
        (wrev.reverse ++ t = w ++ n ∨ wrev.reverse ++ t = w ++ n ++ ['\n']) ∧
        n ≠ [] ∧ n.contains '\n' = false := by
  intro wrev
  induction wrev with
  | nil => intro t w n _ h; simp [shrinkAux] at h
  | cons c wr ih =>
    intro t w n hws h
    simp only [shrinkAux] at h
    cases hm : nomMatch t with
    | some n0 =>
      rw [hm] at h
      injection h with he
      have hw : (c :: wr).reverse = w := congrArg Prod.fst he
      have hn : n0 = n := congrArg Prod.snd he
      subst hw; subst hn
      obtain ⟨e1, e2, e3⟩ := nomMatch_spec t n0 hm
      refine ⟨by simp, ?_, ?_, e1, e2⟩
      · intro d hd
        exact hws d (List.mem_reverse.mp hd)
      · rcases e3 with e3 | e3
        · exact Or.inl (by rw [← e3])
        · exact Or.inr (by rw [List.append_assoc, ← e3])
    | none =>
      rw [hm] at h
      have hws' : ∀ d ∈ wr, isSpace d = true := fun d hd => hws d (List.mem_cons_of_mem _ hd)
      obtain ⟨e1, e2, e3, e4, e5⟩ := ih (c :: t) w n hws' h
      refine ⟨e1, e2, ?_, e4, e5⟩
      have hrw : (c :: wr).reverse ++ t = wr.reverse ++ (c :: t) := by simp
      rw [hrw]
      exact e3

lemma suffixMatch_spec (rest w n : List Char) (h : suffixMatch rest = some (w, n)) :
    w ≠ [] ∧ (∀ c ∈ w, isSpace c = true) ∧
      (rest = w ++ n ∨ rest = w ++ n ++ ['\n']) ∧ n ≠ [] ∧ n.contains '\n' = false := by
  unfold suffixMatch at h
  have hws : ∀ c ∈ (rest.takeWhile isSpace).reverse, isSpace c = true := by
    intro c hc
    exact List.mem_takeWhile_imp (by simpa using hc)
  obtain ⟨e1, e2, e3, e4, e5⟩ := shrinkAux_spec _ _ w n hws h
  rw [List.reverse_reverse, List.takeWhile_append_dropWhile] at e3
  exact ⟨e1, e2, e3, e4, e5⟩

lemma tryVars_spec :
    ∀ (vs : List String) (l : List Char) (m : TipoMatch), tryVars vs l = some m →
      ∃ v ∈ vs, ∃ p rest w n, matchCI v.data l = some (p, rest) ∧
        suffixMatch rest = some (w, n) ∧ m = ⟨String.mk p, String.mk w, String.mk n⟩ := by
  intro vs
  induction vs with
  | nil => intro l m h; simp [tryVars] at h
  | cons v vs ih =>
    intro l m h
    simp only [tryVars] at h
    split at h
    next p rest hm =>
      split at h
      next w n hs =>
        injection h with he
        exact ⟨v, List.mem_cons_self _ _, p, rest, w, n, hm, hs, he.symm⟩
      next hs =>
        obtain ⟨v', hv', rest'⟩ := ih l m h
        exact ⟨v', List.mem_cons_of_mem _ hv', rest'⟩
    next hm =>
      obtain ⟨v', hv', rest'⟩ := ih l m h
      exact ⟨v', List.mem_cons_of_mem _ hv', rest'⟩

/-- C4 (claim as stated is refuted below): what does hold is that the match
never discards characters — token, *matched separator* and remainder
concatenate exactly to the trimmed input; the separator is a non-empty run
of whitespace, but not necessarily the single space the claim inserts. -/
theorem tipoInicio_reconstruction (s : String) (m : TipoMatch)
    (h : tipoInicioMatch (pyStrip s) = some m) :
    m.tipo ++ m.sep ++ m.nombre = pyStrip s ∧ m.sep ≠ "" ∧
      ∀ c ∈ m.sep.data, isSpace c = true := by
  unfold tipoInicioMatch at h
  have hdata : (pyStrip s).data = pyStripL s.data := rfl
  have hdw : (pyStrip s).data.dropWhile isSpace = (pyStrip s).data := by
    apply dropWhile_eq_self_of_head
    intro c hc
    rw [hdata] at hc
    exact pyStripL_head s.data c hc
  rw [hdw] at h
  obtain ⟨v, _, p, rest, w, n, hmc, hsuf, hm⟩ := tryVars_spec TIPO_VARIANTS _ m h
  obtain ⟨e1, _, _⟩ := matchCI_spec v.data _ p rest hmc
  obtain ⟨f1, f2, f3, _, _⟩ := suffixMatch_spec rest w n hsuf
  have hrest : rest = w ++ n := by
    rcases f3 with f3 | f3
    · exact f3
    · exfalso
      have hl : (pyStrip s).data = (p ++ w ++ n) ++ ['\n'] := by
        rw [← e1, f3]; simp
      have hlast : ((pyStrip s).data).getLast? = some '\n' := by
        rw [hl]; exact List.getLast?_concat _
      rw [hdata] at hlast
      have := pyStripL_getLast s.data '\n' hlast
      simp [isSpace] at this
  subst hm
  refine ⟨?_, ?_, ?_⟩
  · show String.mk p ++ String.mk w ++ String.mk n = pyStrip s
    rw [mk_append, mk_append]
    have hl : p ++ w ++ n = (pyStrip s).data := by
      rw [← e1, hrest]; simp
    rw [hl, mk_data]
  · show ¬ String.mk w = ""
    rw [mk_eq_empty_iff]
    exact f1
  · exact f2

/-- C4 counterexample: with two spaces between the detected token and the
remainder, `detectedType ++ " " ++ remainder` does not trim-equal the
original (trimmed) input — the claim as stated fails. -/
theorem tipoInicio_single_space_counterexample :
    tipoInicioMatch (pyStrip "Av.  Reforma") = some ⟨"Av.", "  ", "Reforma"⟩ ∧
      pyStrip ("Av." ++ " " ++ "Reforma") ≠ pyStrip "Av.  Reforma" := by
  constructor
  · decide
  · decide

/-- Witness for `tipoInicio_reconstruction` at a concrete input. -/
theorem tipoInicio_reconstruction_witness :
    ("Av." : String) ++ "  " ++ "Reforma" = pyStrip "Av.  Reforma" ∧
      ("  " : String) ≠ "" ∧ ∀ c ∈ ("  " : String).data, isSpace c = true := by
  have h := tipoInicio_reconstruction "Av.  Reforma" ⟨"Av.", "  ", "Reforma"⟩ (by decide)
  exact h

/-! ## Facts about the type token captured by a successful match -/

lemma tipo_variants_facts :
    ∀ v ∈ TIPO_VARIANTS, v.data ≠ [] ∧ ∀ c ∈ v.data, isSpace c = false := by decide

lemma tipoInicioMatch_token {s : String} {m : TipoMatch}
    (h : tipoInicioMatch s = some m) :
    m.tipo ≠ "" ∧ ∀ c ∈ m.tipo.data, isSpace c = false := by
  unfold tipoInicioMatch at h
  obtain ⟨v, hv, p, rest, w, n, hmc, _, hm⟩ := tryVars_spec TIPO_VARIANTS _ m h
  obtain ⟨_, e2, e3⟩ := matchCI_spec v.data _ p rest hmc
  obtain ⟨g1, g2⟩ := tipo_variants_facts v hv
  subst hm
  constructor
  · show ¬ String.mk p = ""
    rw [mk_eq_empty_iff]
    intro hp
    apply g1
    rw [← List.length_eq_zero, ← e2, hp]
    rfl
  · show ∀ c ∈ p, isSpace c = false
    intro c hc
    obtain ⟨vc, hvc, hl⟩ := e3 c hc
    cases hsc : isSpace c with
    | false => rfl
    | true =>
      exfalso
      have hcc : pyLower c = c := pyLower_of_space hsc
      rw [hcc] at hl
      subst hl
      rw [g2 c hvc] at hsc
      exact Bool.false_ne_true hsc

lemma takeWhile_nil_of_no_space (l : List Char) (h : ∀ c ∈ l, isSpace c = false) :
    l.takeWhile isSpace = [] := by
  cases l with
  | nil => rfl
  | cons a t =>
    rw [List.takeWhile_cons, if_neg]
    rw [h a (List.mem_cons_self _ _)]
    exact Bool.false_ne_true

lemma tryVars_none_of_no_space :
    ∀ (vs : List String) (l : List Char), (∀ c ∈ l, isSpace c = false) →
      tryVars vs l = none := by
  intro vs
  induction vs with
  | nil => intro l _; rfl
  | cons v vs ih =>
    intro l hl
    simp only [tryVars]
    split
    next p rest hm =>
      have hsuf : suffixMatch rest = none := by
        have hrest : ∀ c ∈ rest, isSpace c = false := by
          intro c hc
          obtain ⟨e1, _, _⟩ := matchCI_spec v.data l p rest hm
          exact hl c (by rw [← e1]; exact List.mem_append_right _ hc)
        unfold suffixMatch
        rw [takeWhile_nil_of_no_space rest hrest]
        rfl
      split
      next w n hs =>
        rw [hsuf] at hs
        exact absurd hs (by simp)
      next hs => exact ih l hl
    next hm => exact ih l hl

lemma tipoInicioMatch_none_of_no_space (s : String)
    (h : ∀ c ∈ s.data, isSpace c = false) : tipoInicioMatch s = none := by
  unfold tipoInicioMatch
  rw [dropWhile_eq_self_of_head s.data (fun c hc => h c (List.mem_of_mem_head? hc))]
  exact tryVars_none_of_no_space TIPO_VARIANTS s.data h

/-! ## Idempotence of canonization -/

lemma canonAux_mem :
    ∀ (rules : List (List String × String)) (l : List Char) (c : String),
      canonAux rules l = some c → c ∈ rules.map Prod.snd := by
  intro rules
  induction rules with
  | nil => intro l c h; simp [canonAux] at h
  | cons vc rest ih =>
    intro l c h
    obtain ⟨vars, canon⟩ := vc
    simp only [canonAux] at h
    by_cases hv : vars.any (fun v => canonVariantHit v l) = true
    · rw [if_pos hv] at h
      injection h with he
      subst he
      simp
    · rw [if_neg hv] at h
      simp only [List.map_cons]
      exact List.mem_cons_of_mem _ (ih l c h)

lemma canon_fixed : ∀ c ∈ CANON_RULES.map Prod.snd, canonizar_tipo (some c) = some c := by
  decide

/-- C2: `canonizar_tipo` is idempotent on every input — `None`, whitespace-only,
abbreviated, accented and unrecognized strings included. -/
theorem canonizar_tipo_idempotent (x : Option String) :
    canonizar_tipo (canonizar_tipo x) = canonizar_tipo x := by
  cases x with
  | none => rfl
  | some s =>
    by_cases h0 : pyStrip s = ""
    · simp [canonizar_tipo, h0]
    · cases hm : tipoInicioMatch (pyStrip s) with
      | none =>
        have hred : canonReduce (pyStrip s) = pyStrip s := by simp [canonReduce, hm]
        cases hc : canonLookup (pyStrip s) with
        | some c =>
          have h1 : canonizar_tipo (some s) = some c := by
            simp [canonizar_tipo, h0, hred, hc]
          rw [h1]
          exact canon_fixed c (canonAux_mem CANON_RULES _ c hc)
        | none =>
          have h1 : canonizar_tipo (some s) = some (pyStrip s) := by
            simp [canonizar_tipo, h0, hred, hc]
          rw [h1]
          have hst : pyStrip (pyStrip s) = pyStrip s := pyStrip_idem s
          simp [canonizar_tipo, hst, h0, hred, hc]
      | some m =>
        have hred : canonReduce (pyStrip s) = m.tipo := by simp [canonReduce, hm]
        obtain ⟨hne, hns⟩ := tipoInicioMatch_token hm
        cases hc : canonLookup m.tipo with
        | some c =>
          have h1 : canonizar_tipo (some s) = some c := by
            simp [canonizar_tipo, h0, hred, hc]
          rw [h1]
          exact canon_fixed c (canonAux_mem CANON_RULES _ c hc)
        | none =>
          have h1 : canonizar_tipo (some s) = some m.tipo := by
            simp [canonizar_tipo, h0, hred, hc]
          rw [h1]
          have hst : pyStrip m.tipo = m.tipo := pyStrip_of_no_space _ hns
          have hm2 : tipoInicioMatch m.tipo = none := tipoInicioMatch_none_of_no_space _ hns
          have hred2 : canonReduce m.tipo = m.tipo := by simp [canonReduce, hm2]
          simp [canonizar_tipo, hst, hne, hred2, hc]

/-! ## Step 1 priority, step 3 redundancy, totality -/

/-- C1: whenever the stripped `calle` matches `TIPO_INICIO_RE`, `limpiar_par`
returns the canonized detected token and the stripped remainder, regardless
of what `tipo_via` holds. -/
theorem limpiar_par_step1 (tipo_via : Option String) (c : String) (m : TipoMatch)
    (h : tipoInicioMatch (pyStrip c) = some m) :
    limpiar_par tipo_via (some c) = (canonizar_tipo (some m.tipo), some (pyStrip m.nombre)) := by
  simp [limpiar_par, limpiarStep1, h]

/-- Witness for `limpiar_par_step1`: the spec's conflict-priority example,
`typeVia = "Calle"`, `streetName = "Avenida Reforma"`. -/
theorem limpiar_par_step1_witness :
    limpiar_par (some "Calle") (some "Avenida Reforma")
        = (canonizar_tipo (some "Avenida"), some (pyStrip "Reforma")) ∧
      limpiar_par (some "Calle") (some "Avenida Reforma") = (some "Avenida", some "Reforma") :=
  ⟨limpiar_par_step1 (some "Calle") "Avenida Reforma" ⟨"Avenida", " ", "Reforma"⟩ (by decide),
   by decide⟩

/-- C7: step 3 of `limpiar_par` is observably redundant — on every input the
function returns exactly what the step-3-free variant returns.  (When step 1
failed, step 3 re-runs the very same match on the very same string, so its
inner extraction can never succeed.) -/
theorem limpiar_par_step3_redundant (tipo_via calle : Option String) :
    limpiar_par tipo_via calle = limpiar_par_no3 tipo_via calle := by
  simp only [limpiar_par, limpiar_par_no3]
  cases h1 : limpiarStep1 calle with
  | some r => rfl
  | none =>
    have h3 : limpiarStep3 tipo_via calle = none := by
      cases tipo_via with
      | none => rfl
      | some tv =>
        cases calle with
        | none => rfl
        | some c =>
          have hm : tipoInicioMatch (pyStrip c) = none := by
            by_contra hne
            obtain ⟨m, hm⟩ := Option.ne_none_iff_exists'.mp hne
            have : limpiarStep1 (some c) = some (canonizar_tipo (some m.tipo), some (pyStrip m.nombre)) := by
              simp [limpiarStep1, hm]
            rw [h1] at this
            exact absurd this (by simp)
          simp [limpiarStep3, hm]
    rw [h3]

/-- C9: `limpiar_par` (and `canonizar_tipo` inside it) is a total
function — modelled as a total Lean function over all `Option String`
inputs (`none` standing for `None` or any non-string cell, which the code
routes through the same `isinstance` guard) — and text matching no known
type pattern is passed through: when neither field matches
`TIPO_INICIO_RE` and the type field matches no canonization rule, the
output is the stripped passthrough of the input pair (whitespace-only type
fields are returned verbatim). -/
theorem limpiar_par_total_passthrough (tipo_via calle : Option String)
    (hc : ∀ s, calle = some s → tipoInicioMatch (pyStrip s) = none)
    (htv : ∀ s, tipo_via = some s →
      tipoInicioMatch (pyStrip s) = none ∧ canonLookup (pyStrip s) = none) :
    limpiar_par tipo_via calle =
      (tipo_via.map (fun s => if pyStrip s = "" then s else pyStrip s),
       calle.map pyStrip) := by
  have h1 : limpiarStep1 calle = none := by
    cases calle with
    | none => rfl
    | some c => simp [limpiarStep1, hc c rfl]
  have h3 : limpiarStep3 tipo_via calle = none := by
    cases tipo_via with
    | none => rfl
    | some tv =>
      cases calle with
      | none => rfl
      | some c => simp [limpiarStep3, hc c rfl]
  rw [limpiar_par, h1, h3]
  have h2 : canonizar_tipo tipo_via
      = tipo_via.map (fun s => if pyStrip s = "" then s else pyStrip s) := by
    cases tipo_via with
    | none => rfl
    | some tv =>
      obtain ⟨hm, hl⟩ := htv tv rfl
      by_cases h0 : pyStrip tv = ""
      · simp [canonizar_tipo, h0]
      · have hred : canonReduce (pyStrip tv) = pyStrip tv := by simp [canonReduce, hm]
        simp [canonizar_tipo, h0, hred, hl]
  rw [h2]

/-- Witness for `limpiar_par_total_passthrough`: a pair matching no type
pattern passes through (stripped). -/
theorem limpiar_par_total_passthrough_witness :
    limpiar_par (some " Xyz ") (some "Hello World")
        = ((some " Xyz ").map (fun s => if pyStrip s = "" then s else pyStrip s),
           (some "Hello World").map pyStrip) ∧
      limpiar_par (some " Xyz ") (some "Hello World") = (some "Xyz", some "Hello World") :=
  ⟨limpiar_par_total_passthrough (some " Xyz ") (some "Hello World")
      (fun s hs => by cases hs; decide)
      (fun s hs => by cases hs; exact ⟨by decide, by decide⟩),
   by decide⟩

/-! ## Generic facts about the scan loop -/

lemma scanFold_nil (dry : Bool) (b : Nat) (st : RunState) : scanFold dry b [] st = st := rfl

lemma scanFold_cons (dry : Bool) (b : Nat) (r : Row) (rs : List Row) (st : RunState) :
    scanFold dry b (r :: rs) st = scanFold dry b rs (stepRow dry b st r) := rfl

lemma stepRow_unchanged {r : Row} (dry : Bool) (b : Nat) (st : RunState)
    (h : rowChanged r = false) : stepRow dry b st r = st := by
  simp [stepRow, h]

lemma applyUpdate_ids (t : List Row) (i : Nat) (nt nc : Option String) :
    (applyUpdate t i nt nc).map Row.id = t.map Row.id := by
  unfold applyUpdate
  rw [List.map_map]
  apply List.map_congr_left
  intro r _
  simp only [Function.comp]
  split <;> rfl

lemma stepRow_changedIds (dry : Bool) (b : Nat) (st : RunState) (r : Row) :
    (stepRow dry b st r).changedIds
      = st.changedIds ++ (if rowChanged r then [r.id] else []) := by
  by_cases h : rowChanged r
  · cases dry with
    | false => by_cases hb : b ≤ st.toCommit + 1 <;> simp [stepRow, h, hb]
    | true => simp [stepRow, h]
  · simp [stepRow, h]

lemma stepRow_updated (dry : Bool) (b : Nat) (st : RunState) (r : Row) :
    (stepRow dry b st r).updated = st.updated + (if rowChanged r then 1 else 0) := by
  by_cases h : rowChanged r
  · cases dry with
    | false => by_cases hb : b ≤ st.toCommit + 1 <;> simp [stepRow, h, hb]
    | true => simp [stepRow, h]
  · simp [stepRow, h]

lemma stepRow_updatesExec (dry : Bool) (b : Nat) (st : RunState) (r : Row) :
    (stepRow dry b st r).updatesExec
      = st.updatesExec + (if rowChanged r ∧ dry = false then 1 else 0) := by
  by_cases h : rowChanged r
  · cases dry with
    | false => by_cases hb : b ≤ st.toCommit + 1 <;> simp [stepRow, h, hb]
    | true => simp [stepRow, h]
  · simp [stepRow, h]

lemma stepRow_pending_ids (dry : Bool) (b : Nat) (st : RunState) (r : Row) :
    (stepRow dry b st r).pending.map Row.id = st.pending.map Row.id := by
  by_cases h : rowChanged r
  · cases dry with
    | false => by_cases hb : b ≤ st.toCommit + 1 <;> simp [stepRow, h, hb, applyUpdate_ids]
    | true => simp [stepRow, h]
  · simp [stepRow, h]

lemma scanFold_changedIds (dry : Bool) (b : Nat) :
    ∀ (rows : List Row) (st : RunState),
      (scanFold dry b rows st).changedIds = st.changedIds ++ (chRows rows).map Row.id := by
  intro rows
  induction rows with
  | nil => intro st; simp [scanFold, chRows]
  | cons r rs ih =>
    intro st
    rw [scanFold_cons, ih, stepRow_changedIds]
    by_cases h : rowChanged r <;> simp [chRows, List.filter_cons, h]

lemma scanFold_updated (dry : Bool) (b : Nat) :
    ∀ (rows : List Row) (st : RunState),
      (scanFold dry b rows st).updated = st.updated + (chRows rows).length := by
  intro rows
  induction rows with
  | nil => intro st; simp [scanFold, chRows]
  | cons r rs ih =>
    intro st
    rw [scanFold_cons, ih, stepRow_updated]
    by_cases h : rowChanged r <;> simp [chRows, List.filter_cons, h] <;> omega

lemma scanFold_updatesExec (dry : Bool) (b : Nat) :
    ∀ (rows : List Row) (st : RunState),
      (scanFold dry b rows st).updatesExec
        = st.updatesExec + (if dry then 0 else (chRows rows).length) := by
  intro rows
  induction rows with
  | nil => intro st; cases dry <;> simp [scanFold, chRows]
  | cons r rs ih =>
    intro st
    rw [scanFold_cons, ih, stepRow_updatesExec]
    by_cases h : rowChanged r <;> cases dry <;>
      simp [chRows, List.filter_cons, h] <;> omega

lemma scanFold_pending_ids (dry : Bool) (b : Nat) :
    ∀ (rows : List Row) (st : RunState),
      (scanFold dry b rows st).pending.map Row.id = st.pending.map Row.id := by
  intro rows
  induction rows with
  | nil => intro st; rfl
  | cons r rs ih =>
    intro st
    rw [scanFold_cons, ih, stepRow_pending_ids]

lemma scanFold_dry_frame (b : Nat) :
    ∀ (rows : List Row) (st : RunState),
      (scanFold true b rows st).committed = st.committed ∧
      (scanFold true b rows st).pending = st.pending ∧
      (scanFold true b rows st).toCommit = st.toCommit ∧
      (scanFold true b rows st).updatesExec = st.updatesExec ∧
      (scanFold true b rows st).commitsExec = st.commitsExec := by
  intro rows
  induction rows with
  | nil => intro st; exact ⟨rfl, rfl, rfl, rfl, rfl⟩
  | cons r rs ih =>
    intro st
    rw [scanFold_cons]
    obtain ⟨i1, i2, i3, i4, i5⟩ := ih (stepRow true b st r)
    have s1 : (stepRow true b st r).committed = st.committed ∧
        (stepRow true b st r).pending = st.pending ∧
        (stepRow true b st r).toCommit = st.toCommit ∧
        (stepRow true b st r).updatesExec = st.updatesExec ∧
        (stepRow true b st r).commitsExec = st.commitsExec := by
      by_cases h : rowChanged r <;> simp [stepRow, h]
    exact ⟨i1.trans s1.1, i2.trans s1.2.1, i3.trans s1.2.2.1,
           i4.trans s1.2.2.2.1, i5.trans s1.2.2.2.2⟩

lemma finalFlush_frame (dry : Bool) (st : RunState) :
    (finalFlush dry st).changedIds = st.changedIds ∧
    (finalFlush dry st).updated = st.updated ∧
    (finalFlush dry st).updatesExec = st.updatesExec ∧
    (finalFlush dry st).pending = st.pending := by
  unfold finalFlush
  split <;> exact ⟨rfl, rfl, rfl, rfl⟩

lemma finalFlush_dry (st : RunState) : finalFlush true st = st := by
  unfold finalFlush
  rw [if_neg]
  simp

/-! ## Projections of `runMain` -/

lemma runMain_final_loop (dry : Bool) (b : Nat) (s : List Row)
    (w : Option (Row → Bool)) (mc : Bool) (lim : Nat) :
    (runMain dry b s w mc lim).final.changedIds
        = (scanFold dry b (s.filter (rowPass w)) (initState s)).changedIds ∧
      (runMain dry b s w mc lim).final.updated
        = (scanFold dry b (s.filter (rowPass w)) (initState s)).updated ∧
      (runMain dry b s w mc lim).final.updatesExec
        = (scanFold dry b (s.filter (rowPass w)) (initState s)).updatesExec := by
  obtain ⟨f1, f2, f3, _⟩ :=
    finalFlush_frame dry (scanFold dry b (s.filter (rowPass w)) (initState s))
  unfold runMain
  cases dry <;> exact ⟨f1, f2, f3⟩

lemma runMain_exported (dry : Bool) (b : Nat) (s : List Row)
    (w : Option (Row → Bool)) (mc : Bool) (lim : Nat) :
    (runMain dry b s w mc lim).exported
      = export_csv (finalFlush dry (scanFold dry b (s.filter (rowPass w)) (initState s))).pending
          w mc
          (finalFlush dry (scanFold dry b (s.filter (rowPass w)) (initState s))).changedIds
          lim := rfl

lemma runMain_dry_frame (b : Nat) (s : List Row) (w : Option (Row → Bool))
    (mc : Bool) (lim : Nat) :
    (runMain true b s w mc lim).final.committed = s ∧
    (runMain true b s w mc lim).final.pending = s ∧
    (runMain true b s w mc lim).final.updatesExec = 0 ∧
    (runMain true b s w mc lim).final.commitsExec = 0 := by
  obtain ⟨d1, d2, _, d4, d5⟩ :=
    scanFold_dry_frame b (s.filter (rowPass w)) (initState s)
  have hff := finalFlush_dry (scanFold true b (s.filter (rowPass w)) (initState s))
  refine ⟨?_, ?_, ?_, ?_⟩
  · show (finalFlush true (scanFold true b (s.filter (rowPass w)) (initState s))).committed = s
    rw [hff]; exact d1
  · show (finalFlush true (scanFold true b (s.filter (rowPass w)) (initState s))).committed = s
    rw [hff]; exact d1
  · show (finalFlush true (scanFold true b (s.filter (rowPass w)) (initState s))).updatesExec = 0
    rw [hff]; exact d4
  · show (finalFlush true (scanFold true b (s.filter (rowPass w)) (initState s))).commitsExec = 0
    rw [hff]; exact d5

/-- C3 counterexample: a stored pair that differs from the planned pair
*only in surrounding whitespace* — so, after trimming both sides, stored and
planned coincide — is nevertheless marked changed: the loop compares the raw
values, updates the row and records its id.  The claim's "changed iff
different after trimming" is false on the code. -/
theorem changed_raw_comparison_counterexample :
    cleanRow ⟨1, some "Calle", some " Foo "⟩ = (some "Calle", some "Foo") ∧
      ((cleanRow ⟨1, some "Calle", some " Foo "⟩).1.map pyStrip,
        (cleanRow ⟨1, some "Calle", some " Foo "⟩).2.map pyStrip)
        = ((some "Calle" : Option String).map pyStrip,
           (some " Foo " : Option String).map pyStrip) ∧
      rowChanged ⟨1, some "Calle", some " Foo "⟩ = true ∧
      (runMain false 5000 [⟨1, some "Calle", some " Foo "⟩] none false 0).final.changedIds
        = [1] ∧
      (runMain false 5000 [⟨1, some "Calle", some " Foo "⟩] none false 0).final.updatesExec
        = 1 := by
  refine ⟨by decide, by decide, by decide, by decide, by decide⟩

/-- C3 (amended): `changed` is true — the row is updated and its id added
to the change set — iff the planned pair differs from the stored pair under
*raw* (untrimmed) equality; the run records exactly the ids of those rows
and executes exactly that many UPDATEs, skipping the rest entirely. -/
theorem changed_iff_raw_difference (dry : Bool) (b lim : Nat) (s : List Row)
    (w : Option (Row → Bool)) (mc : Bool) (r : Row) :
    (runMain dry b s w mc lim).final.changedIds
        = (chRows (s.filter (rowPass w))).map Row.id ∧
      (rowChanged r = true ↔ cleanRow r ≠ (r.tipo_via, r.calle)) ∧
      (runMain false b s w mc lim).final.updatesExec
        = (chRows (s.filter (rowPass w))).length := by
  obtain ⟨p1, _, _⟩ := runMain_final_loop dry b s w mc lim
  obtain ⟨_, _, q3⟩ := runMain_final_loop false b s w mc lim
  refine ⟨?_, by simp [rowChanged], ?_⟩
  · rw [p1, scanFold_changedIds]
    rfl
  · rw [q3, scanFold_updatesExec]
    simp [initState]

/-- C5: on the same snapshot and parameters, dry-run and real run compute
the identical change set and changed count; the dry run executes no UPDATE
and no COMMIT, its durable table is untouched, and its transaction view is
rolled back to the snapshot at the end. -/
theorem dry_run_equivalence (b : Nat) (s : List Row) (w : Option (Row → Bool))
    (mc : Bool) (lim : Nat) :
    (runMain true b s w mc lim).final.changedIds
        = (runMain false b s w mc lim).final.changedIds ∧
      (runMain true b s w mc lim).final.updated
        = (runMain false b s w mc lim).final.updated ∧
      (runMain true b s w mc lim).final.updatesExec = 0 ∧
      (runMain true b s w mc lim).final.commitsExec = 0 ∧
      (runMain true b s w mc lim).final.committed = s ∧
      (runMain true b s w mc lim).final.pending = s := by
  obtain ⟨p1, p2, _⟩ := runMain_final_loop true b s w mc lim
  obtain ⟨q1, q2, _⟩ := runMain_final_loop false b s w mc lim
  obtain ⟨d1, d2, d3, d4⟩ := runMain_dry_frame b s w mc lim
  refine ⟨?_, ?_, d3, d4, d1, d2⟩
  · rw [p1, q1, scanFold_changedIds, scanFold_changedIds]
  · rw [p2, q2, scanFold_updated, scanFold_updated]

lemma export_csv_written (tbl : List Row) (w : Option (Row → Bool)) (mc : Bool)
    (ids : List Nat) (lim : Nat) : (export_csv tbl w mc ids lim).written = true := by
  unfold export_csv
  by_cases hmc : mc = true
  · rw [if_pos hmc]
    by_cases hids : ids = []
    · rw [if_pos hids]
    · rw [if_neg hids]
  · rw [if_neg hmc]

/-! ## Batch-commit accounting -/

lemma applyPlans_append (t : List Row) (ps : List (Nat × Option String × Option String))
    (p : Nat × Option String × Option String) :
    applyPlans t (ps ++ [p]) = applyPlan (applyPlans t ps) p := by
  unfold applyPlans
  rw [List.foldl_append]
  rfl

lemma chRows_append (a c : List Row) : chRows (a ++ c) = chRows a ++ chRows c := by
  unfold chRows
  exact List.filter_append _ _

lemma mod_div_succ_full {b n : Nat} (hb : 0 < b) (h : n % b + 1 = b) :
    (n + 1) % b = 0 ∧ (n + 1) / b = n / b + 1 := by
  have hd := Nat.div_add_mod n b
  have h1 : n + 1 = b * (n / b + 1) := by
    rw [Nat.mul_succ]
    omega
  constructor
  · rw [h1]; exact Nat.mul_mod_right b _
  · rw [h1]; exact Nat.mul_div_cancel_left _ hb

lemma mod_div_succ_part {b n : Nat} (h : n % b + 1 < b) :
    (n + 1) % b = n % b + 1 ∧ (n + 1) / b = n / b := by
  have hb : 0 < b := by omega
  have hd := Nat.div_add_mod n b
  have h1 : n + 1 = (n % b + 1) + b * (n / b) := by omega
  constructor
  · rw [h1, Nat.add_mul_mod_self_left, Nat.mod_eq_of_lt h]
  · rw [h1, Nat.add_mul_div_left _ _ hb, Nat.div_eq_of_lt h]
    omega

lemma realInv_init (b : Nat) (s0 : List Row) : RealInv b s0 [] (initState s0) := by
  refine ⟨rfl, by simp [chRows, initState], by simp [chRows, initState],
    by simp [chRows, applyPlans, initState]⟩

lemma realInv_step {b : Nat} (hb : 0 < b) {s0 pr : List Row} {st : RunState} (r : Row)
    (h : RealInv b s0 pr st) : RealInv b s0 (pr ++ [r]) (stepRow false b st r) := by
  obtain ⟨h1, h2, h3, h4⟩ := h
  by_cases hch : rowChanged r
  case neg =>
    have hch' : rowChanged r = false := by simpa using hch
    rw [stepRow_unchanged false b st hch']
    have hc : chRows (pr ++ [r]) = chRows pr := by
      rw [chRows_append]
      simp [chRows, List.filter_cons, hch']
    unfold RealInv
    rw [hc]
    exact ⟨h1, h2, h3, h4⟩
  case pos =>
    have hc : chRows (pr ++ [r]) = chRows pr ++ [r] := by
      rw [chRows_append]
      simp [chRows, List.filter_cons, hch]
    have hpend : (stepRow false b st r).pending = applyPlan st.pending (planOf r) := by
      by_cases hb2 : b ≤ st.toCommit + 1 <;> simp [stepRow, hch, hb2, applyPlan, planOf]
    unfold RealInv
    rw [hc, List.map_append, List.length_append]
    simp only [List.map_cons, List.map_nil, List.length_cons, List.length_nil, Nat.zero_add]
    by_cases hb2 : b ≤ st.toCommit + 1
    · have hfull : (chRows pr).length % b + 1 = b := by
        have hlt := Nat.mod_lt (chRows pr).length hb
        omega
      obtain ⟨hm0, hd1⟩ := mod_div_succ_full hb hfull
      have e2 : (stepRow false b st r).toCommit = 0 := by simp [stepRow, hch, hb2]
      have e3 : (stepRow false b st r).commitsExec = st.commitsExec + 1 := by
        simp [stepRow, hch, hb2]
      have e4 : (stepRow false b st r).committed = applyPlan st.pending (planOf r) := by
        simp [stepRow, hch, hb2, applyPlan, planOf]
      have hplen : ((chRows pr).map planOf ++ [planOf r]).length = (chRows pr).length + 1 := by
        simp
      refine ⟨?_, ?_, ?_, ?_⟩
      · rw [hpend, h1, ← applyPlans_append]
      · rw [e2]
        omega
      · rw [e3, h3]
        omega
      · rw [e4, h1, ← applyPlans_append]
        congr 1
        rw [hd1]
        have hdvd : b ∣ (chRows pr).length + 1 := by
          apply Nat.dvd_of_mod_eq_zero
          omega
        rw [show b * ((chRows pr).length / b + 1) = (chRows pr).length + 1 from by
          rw [← hd1]; exact Nat.mul_div_cancel' hdvd]
        rw [← hplen, List.take_length]
    · have hpart : (chRows pr).length % b + 1 < b := by omega
      obtain ⟨hm1, hd1⟩ := mod_div_succ_part hpart
      have e2 : (stepRow false b st r).toCommit = st.toCommit + 1 := by
        simp [stepRow, hch, hb2]
      have e3 : (stepRow false b st r).commitsExec = st.commitsExec := by
        simp [stepRow, hch, hb2]
      have e4 : (stepRow false b st r).committed = st.committed := by
        simp [stepRow, hch, hb2]
      refine ⟨?_, ?_, ?_, ?_⟩
      · rw [hpend, h1, ← applyPlans_append]
      · rw [e2, h2]
        omega
      · rw [e3, h3]
        omega
      · rw [e4, h4]
        congr 1
        rw [hd1]
        rw [List.take_append_of_le_length]
        calc b * ((chRows pr).length / b) = (chRows pr).length / b * b := Nat.mul_comm _ _
          _ ≤ (chRows pr).length := Nat.div_mul_le_self _ _
          _ = ((chRows pr).map planOf).length := (List.length_map _ _).symm

lemma realInv_fold {b : Nat} (hb : 0 < b) {s0 : List Row} :
    ∀ (rows pr : List Row) (st : RunState), RealInv b s0 pr st →
      RealInv b s0 (pr ++ rows) (scanFold false b rows st) := by
  intro rows
  induction rows with
  | nil => intro pr st h; simpa using h
  | cons r rs ih =>
    intro pr st h
    rw [scanFold_cons]
    have h2 := realInv_step hb r h
    have h3 := ih (pr ++ [r]) _ h2
    rw [show pr ++ r :: rs = (pr ++ [r]) ++ rs from by simp] at *
    exact h3

/-- C6: in a real run, a commit happens exactly once per `batch` accumulated
updates; at any abort point the durable table holds exactly the mutations of
the `k = (changed so far) / batch` full batches — never the in-flight
partial batch — and the batch counter holds the remainder; completing the
stream adds one final flush exactly when a non-empty remainder exists, after
which all planned mutations are durable. -/
theorem batch_commit_boundaries (b : Nat) (hb : 0 < b) (s : List Row)
    (w : Option (Row → Bool)) (j : Nat) :
    (runAborted b s w j).committed
        = applyPlans s (((chRows ((s.filter (rowPass w)).take j)).map planOf).take
            (b * ((chRows ((s.filter (rowPass w)).take j)).length / b)))
    ∧ (runAborted b s w j).commitsExec
        = (chRows ((s.filter (rowPass w)).take j)).length / b
    ∧ (runAborted b s w j).toCommit
        = (chRows ((s.filter (rowPass w)).take j)).length % b
    ∧ (finalFlush false (scanFold false b (s.filter (rowPass w)) (initState s))).committed
        = applyPlans s ((chRows (s.filter (rowPass w))).map planOf)
    ∧ (finalFlush false (scanFold false b (s.filter (rowPass w)) (initState s))).commitsExec
        = (chRows (s.filter (rowPass w))).length / b
          + (if (chRows (s.filter (rowPass w))).length % b = 0 then 0 else 1) := by
  have hinv := realInv_fold hb ((s.filter (rowPass w)).take j) [] (initState s)
    (realInv_init b s)
  rw [List.nil_append] at hinv
  obtain ⟨a1, a2, a3, a4⟩ := hinv
  have hinv2 := realInv_fold hb (s.filter (rowPass w)) [] (initState s)
    (realInv_init b s)
  rw [List.nil_append] at hinv2
  obtain ⟨i1, i2, i3, i4⟩ := hinv2
  refine ⟨a4, a3, a2, ?_, ?_⟩
  · unfold finalFlush
    by_cases hz : (chRows (s.filter (rowPass w))).length % b = 0
    · rw [if_neg (by rw [i2]; omega)]
      rw [i4]
      congr 1
      have hdvd : b ∣ (chRows (s.filter (rowPass w))).length := Nat.dvd_of_mod_eq_zero hz
      rw [Nat.mul_div_cancel' hdvd, ← List.length_map (chRows (s.filter (rowPass w))) planOf,
        List.take_length]
    · rw [if_pos (by rw [i2]; constructor; rfl; omega)]
      exact i1
  · unfold finalFlush
    by_cases hz : (chRows (s.filter (rowPass w))).length % b = 0
    · rw [if_neg (by rw [i2]; omega)]
      rw [i3, if_pos hz]
      omega
    · rw [if_pos (by rw [i2]; constructor; rfl; omega)]
      rw [if_neg hz]
      simp only []
      rw [i3]

/-- Witness for `batch_commit_boundaries`: batch size 2, three changed rows,
aborting after the third row — two full batches worth of arithmetic. -/
theorem batch_commit_boundaries_witness :
    0 < 2 ∧
    ((runAborted 2 sampleRows none 3).committed
        = applyPlans sampleRows (((chRows ((sampleRows.filter (rowPass none)).take 3)).map planOf).take
            (2 * ((chRows ((sampleRows.filter (rowPass none)).take 3)).length / 2)))
    ∧ (runAborted 2 sampleRows none 3).commitsExec
        = (chRows ((sampleRows.filter (rowPass none)).take 3)).length / 2
    ∧ (runAborted 2 sampleRows none 3).toCommit
        = (chRows ((sampleRows.filter (rowPass none)).take 3)).length % 2
    ∧ (finalFlush false (scanFold false 2 (sampleRows.filter (rowPass none)) (initState sampleRows))).committed
        = applyPlans sampleRows ((chRows (sampleRows.filter (rowPass none))).map planOf)
    ∧ (finalFlush false (scanFold false 2 (sampleRows.filter (rowPass none)) (initState sampleRows))).commitsExec
        = (chRows (sampleRows.filter (rowPass none))).length / 2
          + (if (chRows (sampleRows.filter (rowPass none))).length % 2 = 0 then 0 else 1)) :=
  ⟨by decide, batch_commit_boundaries 2 (by decide) sampleRows none 3⟩

/-! ## Export counting -/

lemma insertById_perm (r : Row) : ∀ l : List Row, List.Perm (insertById r l) (r :: l) := by
  intro l
  induction l with
  | nil => exact List.Perm.refl _
  | cons x xs ih =>
    unfold insertById
    by_cases h : r.id ≤ x.id
    · rw [if_pos h]
    · rw [if_neg h]
      exact (List.Perm.cons x ih).trans (List.Perm.swap r x xs)

lemma sortById_perm : ∀ l : List Row, List.Perm (sortById l) l := by
  intro l
  induction l with
  | nil => exact List.Perm.refl _
  | cons x xs ih =>
    have hx : sortById (x :: xs) = insertById x (sortById xs) := rfl
    rw [hx]
    exact (insertById_perm x (sortById xs)).trans (List.Perm.cons x ih)

lemma chRows_sublist (s : List Row) : List.Sublist (chRows s) s := List.filter_sublist s

lemma filter_rowPass_none (s : List Row) : s.filter (rowPass none) = s := by
  have h : s.filter (rowPass none) = s.filter (fun _ => true) := by
    apply List.filter_congr
    intro x _
    rfl
  rw [h, List.filter_true]

lemma filter_mem_length :
    ∀ (tbl : List Row) (C : List Nat), (tbl.map Row.id).Nodup → C.Nodup →
      (∀ i ∈ C, i ∈ tbl.map Row.id) →
      (tbl.filter (fun r => decide (r.id ∈ C))).length = C.length := by
  intro tbl
  induction tbl with
  | nil =>
    intro C _ _ hsub
    have hC : C = [] := by
      cases C with
      | nil => rfl
      | cons c cs => exact absurd (hsub c (List.mem_cons_self _ _)) (by simp)
    rw [hC]
    rfl
  | cons r t ih =>
    intro C hnd hC hsub
    rw [List.map_cons, List.nodup_cons] at hnd
    obtain ⟨hrid, hndt⟩ := hnd
    by_cases hrc : r.id ∈ C
    · rw [List.filter_cons, if_pos (by simpa using hrc)]
      have hcongr : t.filter (fun x => decide (x.id ∈ C))
          = t.filter (fun x => decide (x.id ∈ C.erase r.id)) := by
        apply List.filter_congr
        intro x hx
        have hxid : x.id ≠ r.id := by
          intro he
          apply hrid
          rw [← he]
          exact List.mem_map_of_mem Row.id hx
        simp [List.mem_erase_of_ne hxid]
      have hih := ih (C.erase r.id) hndt (hC.erase _) (by
        intro i hi
        obtain ⟨hine, hiC⟩ := (List.Nodup.mem_erase_iff hC).mp hi
        have hmem := hsub i hiC
        rw [List.map_cons, List.mem_cons] at hmem
        rcases hmem with he | he
        · exact absurd he hine
        · exact he)
      rw [List.length_cons, hcongr, hih]
      have hle := List.length_erase_of_mem hrc
      have hpos : 0 < C.length := List.length_pos.mpr (List.ne_nil_of_mem hrc)
      omega
    · rw [List.filter_cons, if_neg (by simpa using hrc)]
      apply ih C hndt hC
      intro i hi
      have hmem := hsub i hi
      rw [List.map_cons, List.mem_cons] at hmem
      rcases hmem with he | he
      · exact absurd (he ▸ hi) hrc
      · exact he

lemma runMain_export_table_ids (dry : Bool) (b : Nat) (s : List Row)
    (w : Option (Row → Bool)) :
    (finalFlush dry (scanFold dry b (s.filter (rowPass w)) (initState s))).pending.map Row.id
      = s.map Row.id := by
  rw [(finalFlush_frame _ _).2.2.2, scanFold_pending_ids]
  rfl

lemma runMain_export_changedIds (dry : Bool) (b : Nat) (s : List Row)
    (w : Option (Row → Bool)) :
    (finalFlush dry (scanFold dry b (s.filter (rowPass w)) (initState s))).changedIds
      = (chRows (s.filter (rowPass w))).map Row.id := by
  rw [(finalFlush_frame _ _).1, scanFold_changedIds]
  rfl

lemma export_csv_changed_length (tbl : List Row) (C : List Nat)
    (hnd : (tbl.map Row.id).Nodup) (hC : C.Nodup)
    (hsub : ∀ i ∈ C, i ∈ tbl.map Row.id) :
    (export_csv tbl none true C 0).rows.length = C.length := by
  by_cases hCe : C = []
  · subst hCe
    rfl
  · unfold export_csv
    rw [if_pos rfl, if_neg hCe]
    show (limcut 0 (sortById (tbl.filter
      fun r => decide (r.id ∈ C) && rowPass none r))).length = C.length
    have hcut : limcut 0 (sortById (tbl.filter
        fun r => decide (r.id ∈ C) && rowPass none r))
        = sortById (tbl.filter fun r => decide (r.id ∈ C) && rowPass none r) := by
      unfold limcut
      rw [if_neg (by omega)]
    rw [hcut, (sortById_perm _).length_eq]
    have hpred : tbl.filter (fun r => decide (r.id ∈ C) && rowPass none r)
        = tbl.filter (fun r => decide (r.id ∈ C)) := by
      apply List.filter_congr
      intro x _
      show (decide (x.id ∈ C) && rowPass none x) = decide (x.id ∈ C)
      rw [show rowPass none x = true from rfl, Bool.and_true]
    rw [hpred]
    exact filter_mem_length tbl C hnd hC hsub

lemma export_csv_all_length (tbl : List Row) (C : List Nat) (lim : Nat) :
    (export_csv tbl none false C lim).rows.length
      = if 0 < lim then min lim tbl.length else tbl.length := by
  unfold export_csv
  rw [if_neg (by simp)]
  show (limcut lim (sortById (tbl.filter (rowPass none)))).length = _
  rw [filter_rowPass_none]
  unfold limcut
  by_cases hl : 0 < lim
  · rw [if_pos hl, if_pos hl, List.length_take, (sortById_perm tbl).length_eq]
  · rw [if_neg hl, if_neg hl, (sortById_perm tbl).length_eq]

/-- C8 counterexample: the `LIMIT` clause truncates the `changed`-mode
export too, so with a limit smaller than the change set the changed-mode
row count is NOT the cardinality of the ChangeSet, refuting the claim as
stated. -/
theorem export_limit_counterexample :
    (runMain false 5000 sampleRows none true 1).exported.rows.length = 1 ∧
      (runMain false 5000 sampleRows none true 1).final.changedIds.length = 3 := by
  exact ⟨by decide, by decide⟩

/-- C8 (amended): with no export row limit (the limit truncates
changed-mode output too) and no export filter, and a duplicate-free primary
key, the changed-mode export has exactly one row per ChangeSet entry; an
empty ChangeSet yields a header-only CSV plus a notice instead of an error;
the all-mode export row count is the table row count, bounded by the limit
when one is set. -/
theorem export_counts (dry : Bool) (b lim : Nat) (s : List Row)
    (hnd : (s.map Row.id).Nodup) :
    (runMain dry b s none true 0).exported.rows.length
        = (runMain dry b s none true 0).final.changedIds.length
    ∧ export_csv s none true [] lim = ⟨[], true, true⟩
    ∧ (runMain dry b s none false lim).exported.rows.length
        = (if 0 < lim then min lim s.length else s.length) := by
  have hT := runMain_export_table_ids dry b s none
  refine ⟨?_, rfl, ?_⟩
  · have hC := runMain_export_changedIds dry b s none
    have hfinal : (runMain dry b s none true 0).final.changedIds
        = (chRows s).map Row.id := by
      rw [(runMain_final_loop dry b s none true 0).1, scanFold_changedIds,
        filter_rowPass_none]
      rfl
    rw [runMain_exported, hfinal]
    rw [filter_rowPass_none] at hC hT ⊢
    rw [hC]
    apply export_csv_changed_length
    · rw [hT]; exact hnd
    · exact List.Nodup.sublist (List.Sublist.map Row.id (chRows_sublist s)) hnd
    · intro i hi
      rw [hT]
      exact (List.Sublist.map Row.id (chRows_sublist s)).subset hi
  · rw [runMain_exported, export_csv_all_length]
    have hTlen : (finalFlush dry (scanFold dry b (s.filter (rowPass none))
        (initState s))).pending.length = s.length := by
      have h1 := congrArg List.length (runMain_export_table_ids dry b s none)
      simpa using h1
    rw [hTlen]

/-- Witness for `export_counts` at the concrete sample table. -/
theorem export_counts_witness :
    (sampleRows.map Row.id).Nodup ∧
    ((runMain false 5000 sampleRows none true 0).exported.rows.length
        = (runMain false 5000 sampleRows none true 0).final.changedIds.length
    ∧ export_csv sampleRows none true [] 1 = ⟨[], true, true⟩
    ∧ (runMain false 5000 sampleRows none false 1).exported.rows.length
        = (if 0 < 1 then min 1 sampleRows.length else sampleRows.length)) :=
  ⟨by decide, export_counts false 5000 1 sampleRows (by decide)⟩

/-- C10: every invocation — dry-run included — runs the export phase and
writes the CSV file; the dry-run no-persist guarantee covers only the
database (its durable table stays equal to the snapshot), not the
filesystem. -/
theorem dry_run_still_exports (dry : Bool) (b lim : Nat) (s : List Row)
    (w : Option (Row → Bool)) (mc : Bool) :
    (runMain dry b s w mc lim).exported.written = true ∧
      (runMain true b s w mc lim).final.committed = s := by
  constructor
  · rw [runMain_exported]
    exact export_csv_written _ _ _ _ _
  · exact (runMain_dry_frame b s w mc lim).1

/-! ## Concrete sanity checks of the embedding -/

example : limpiar_par (some "Calle") (some "Avenida Reforma")
    = (some "Avenida", some "Reforma") := by decide

example : limpiar_par (some "Av.") (some "Las Flores")
    = (some "Avenida", some "Las Flores") := by decide

example : canonizar_tipo (some "Blvd") = some "Bulevar" := by decide

example : tipoInicioMatch "Av.  Reforma" = some ⟨"Av.", "  ", "Reforma"⟩ := by decide

example : tipoInicioMatch "calz. Norte" = some ⟨"calz.", " ", "Norte"⟩ := by decide

example : tipoInicioMatch "c. Juárez" = some ⟨"c.", " ", "Juárez"⟩ := by decide

example : tipoInicioMatch "Reforma" = none := by decide

example :
    (runMain false 2
      [⟨1, some "Av.", some "Uno"⟩, ⟨2, some "Calle", some "Avenida Dos"⟩,
       ⟨3, some "Privada", some "Las Flores"⟩]
      none false 0).final.changedIds = [1, 2] := by decide

example :
    (runMain false 2
      [⟨1, some "Av.", some "Uno"⟩, ⟨2, some "Calle", some "Avenida Dos"⟩,
       ⟨3, some "Privada", some "Las Flores"⟩]
      none false 0).final.committed =
    [⟨1, some "Avenida", some "Uno"⟩, ⟨2, some "Avenida", some "Dos"⟩,
     ⟨3, some "Privada", some "Las Flores"⟩] := by decide

example :
    (runMain true 2
      [⟨1, some "Av.", some "Uno"⟩, ⟨2, some "Calle", some "Avenida Dos"⟩]
      none false 0).final.committed
      = [⟨1, some "Av.", some "Uno"⟩, ⟨2, some "Calle", some "Avenida Dos"⟩] := by decide

example :
    (runAborted 2
      [⟨1, some "Av.", some "Uno"⟩, ⟨2, some "Av.", some "Dos"⟩, ⟨3, some "Av.", some "Tres"⟩]
      none 3).committed =
    [⟨1, some "Avenida", some "Uno"⟩, ⟨2, some "Avenida", some "Dos"⟩,
     ⟨3, some "Av.", some "Tres"⟩] := by decide
